import Mathlib

set_option autoImplicit false

namespace HabitTracker

/-!
Shallow embedding of the habit-tracker application (src/app.py).

The mutable Streamlit session state holds `habits` (an ordered Python list of
habit names) and `habit_data` (a dict from habit name to a nested dict with
keys category, goal, streak, history).  Python dicts are modelled as
association lists that preserve insertion order; dict assignment overwrites in
place or appends, matching CPython semantics.
-/

/-- A habit record: category, goal, the incremental streak counter, and the
per-date completion history (dict from ISO date string to bool).  Mirrors the
dict created by the Add Habit handler, src/app.py lines 55-60. -/
structure Habit where
  category : String
  goal : String
  streak : Nat
  history : List (String × Bool)
deriving Repr, DecidableEq

/-- The session state: the ordered habit-name list `st.session_state.habits`
and the name-to-habit dict `st.session_state.habit_data`
(src/app.py lines 16-20). -/
structure Store where
  habits : List String
  habit_data : List (String × Habit)
deriving Repr, DecidableEq

/-- Dict read `d[k]` (and the membership test `k in d`): the entry with the
given key, if any. -/
def lookupKey {α : Type} : List (String × α) → String → Option α
  | [], _ => none
  | (k, v) :: rest, key => if k = key then some v else lookupKey rest key

/-- Dict assignment `d[k] = v`: overwrite in place when the key is present,
append at the end otherwise (CPython keeps insertion order). -/
def setKey {α : Type} : List (String × α) → String → α → List (String × α)
  | [], key, v => [(key, v)]
  | (k, w) :: rest, key, v =>
    if k = key then (key, v) :: rest else (k, w) :: setKey rest key v

/-- Dict deletion `del d[k]`: drop the entry with the given key (a dict holds
at most one entry per key). -/
def delKey {α : Type} : List (String × α) → String → List (String × α)
  | [], _ => []
  | (k, v) :: rest, key => if k = key then rest else (k, v) :: delKey rest key

/-- Python `list.remove(x)`: drop the first occurrence of `x`. -/
def removeFirst : List String → String → List String
  | [], _ => []
  | x :: rest, y => if x = y then rest else x :: removeFirst rest y

/-- The recoverable failures the UI surfaces as sidebar error messages. -/
inductive StoreError where
  | DuplicateHabit
  | InvalidName
  | NotFound
deriving Repr, DecidableEq

/-- The Add Habit button handler, src/app.py lines 52-66.  Python string
truthiness makes the guard `if new_habit` mean `name is non-empty`; the
whitespace content of the name is never inspected.  Returns the resulting
session state together with the error message shown, if any (the state is
untouched on failure). -/
def add_habit (s : Store) (name category goal : String) : Store × Option StoreError :=
  if name ≠ "" ∧ name ∉ s.habits then
    ({ habits := s.habits ++ [name],
       habit_data := setKey s.habit_data name
         { category := category, goal := goal, streak := 0, history := [] } }, none)
  else if name ∈ s.habits then
    (s, some StoreError.DuplicateHabit)
  else
    (s, some StoreError.InvalidName)

/-- The Remove Habit button handler, src/app.py lines 69-77.  The selectbox
only offers names present in `habits`; an absent name is the spec's NotFound
failure.  `habits.remove` drops the first occurrence; the dict entry is
deleted when present. -/
def remove_habit (s : Store) (name : String) : Store × Option StoreError :=
  if name ∈ s.habits then
    ({ habits := removeFirst s.habits name,
       habit_data := delKey s.habit_data name }, none)
  else
    (s, some StoreError.NotFound)

/-- The check-in update block, src/app.py lines 102-127, as the operation the
spec calls record_checkin.  The prior status `habit_completed` is
`history.get(date, False)` (lines 103-105); the write and the streak update
run only when the new value differs (line 115): set `history[date]`, then
increment the streak on true and reset it to 0 on false (lines 119-125).
A habit absent from the dict is the spec's NotFound failure. -/
def record_checkin (s : Store) (name date : String) (completed : Bool) :
    Store × Option StoreError :=
  match lookupKey s.habit_data name with
  | none => (s, some StoreError.NotFound)
  | some hab =>
    let habit_completed := (lookupKey hab.history date).getD false
    if completed ≠ habit_completed then
      let hab' : Habit :=
        { hab with
          history := setKey hab.history date completed,
          streak := if completed then hab.streak + 1 else 0 }
      ({ s with habit_data := setKey s.habit_data name hab' }, none)
    else
      (s, none)

/-- The current streak the analytics tab reads for a habit
(src/app.py line 142). -/
def streakOf (s : Store) (name : String) : Option Nat :=
  (lookupKey s.habit_data name).map Habit.streak

/-- The completion-rate computation, src/app.py lines 156-165:
`total = len(history)`, `completed = sum(1 for status in history.values() if
status)`, `rate = (completed / total) * 100 if total > 0 else 0`. -/
def completion_rate (hab : Habit) : ℚ :=
  let total : Nat := hab.history.length
  let completed : Nat := (hab.history.filter fun p => p.2).length
  if 0 < total then ((completed : ℚ) / (total : ℚ)) * 100 else 0

/-- Gregorian leap-year test of Python's datetime (proleptic Gregorian
calendar). -/
def isLeapYear (y : Nat) : Bool :=
  y % 4 == 0 && (y % 100 != 0 || y % 400 == 0)

/-- Number of days in a month.  The code computes this as the day component of
(first day of the next month minus one day), src/app.py lines 188-194, which
in the proleptic Gregorian calendar of Python's datetime equals this table. -/
def daysInMonth (y m : Nat) : Nat :=
  if m = 2 then (if isLeapYear y then 29 else 28)
  else if m = 4 ∨ m = 6 ∨ m = 9 ∨ m = 11 then 30
  else 31

/-- Days in the months of year `y` strictly before month `m`. -/
def daysBeforeMonth (y m : Nat) : Nat :=
  (List.range' 1 (m - 1)).foldl (fun acc mm => acc + daysInMonth y mm) 0

/-- Rata-die day number of a proleptic Gregorian date (day 1 is
0001-01-01, a Monday). -/
def rataDie (y m d : Nat) : Nat :=
  365 * (y - 1) + (y - 1) / 4 - (y - 1) / 100 + (y - 1) / 400 + daysBeforeMonth y m + d

/-- Python's `datetime.date(y, m, d).weekday()`: Monday = 0, ..., Sunday = 6
(src/app.py line 201). -/
def weekday (y m d : Nat) : Nat :=
  (rataDie y m d + 6) % 7

/-- Two-digit zero-padded rendering of a month or day number. -/
def pad2 (n : Nat) : String :=
  if n < 10 then "0" ++ toString n else toString n

/-- Four-digit zero-padded rendering of a year number. -/
def pad4 (n : Nat) : String :=
  if n < 10 then "000" ++ toString n
  else if n < 100 then "00" ++ toString n
  else if n < 1000 then "0" ++ toString n
  else toString n

/-- `date.strftime("%Y-%m-%d")` as used for history keys
(src/app.py lines 94 and 208). -/
def dateStr (y m d : Nat) : String :=
  pad4 y ++ "-" ++ pad2 m ++ "-" ++ pad2 d

/-- A non-empty calendar cell, src/app.py lines 215-225: the day number, the
completion status looked up in the habit's history with default False, and
the date.  Padding cells are `Option.none`. -/
structure DayCell where
  day : Nat
  completed : Bool
  date : String
deriving Repr, DecidableEq

/-- The day cells of a month in order, one per day 1..num_days, each carrying
`completed = history.get(date_str, False)` (src/app.py lines 206-225). -/
def monthCells (hist : List (String × Bool)) (y m : Nat) : List (Option DayCell) :=
  (List.range' 1 (daysInMonth y m)).map fun d =>
    some { day := d,
           completed := (lookupKey hist (dateStr y m d)).getD false,
           date := dateStr y m d }

/-- One iteration of the calendar loop body after the cell is appended to the
current week: when the week reaches 7 cells it is flushed to the grid
(src/app.py lines 227-229). -/
def calStep (acc : List (List (Option DayCell)) × List (Option DayCell))
    (c : Option DayCell) : List (List (Option DayCell)) × List (Option DayCell) :=
  let week := acc.2 ++ [c]
  if week.length = 7 then (acc.1 ++ [week], []) else (acc.1, week)

/-- The calendar grid construction, src/app.py lines 196-235: start the first
week with `first_day.weekday()` empty cells, append a cell per day flushing
full weeks, and right-pad the final partial week with empty cells to length
7. -/
def calendar_grid (hist : List (String × Bool)) (y m : Nat) :
    List (List (Option DayCell)) :=
  let start : List (List (Option DayCell)) × List (Option DayCell) :=
    ([], List.replicate (weekday y m 1) none)
  let fin := (monthCells hist y m).foldl calStep start
  if fin.2.isEmpty then fin.1
  else fin.1 ++ [fin.2 ++ List.replicate (7 - fin.2.length) none]

/-- JSON values, the parse result of `json.load`.  The persistence layer is
modelled at the level of parsed values: a parseable file content is its JSON
value. -/
inductive Json where
  | null
  | bool (b : Bool)
  | num (n : Int)
  | str (s : String)
  | arr (elems : List Json)
  | obj (entries : List (String × Json))
deriving Repr

/-- Python subscripting `data[key]`: a value for object members, otherwise the
lookup raises (KeyError on a missing member, TypeError on a non-dict),
modelled as `Option.none`. -/
def jsonGet : Json → String → Option Json
  | Json.obj kvs, key => lookupKey kvs key
  | _, _ => none

/-- The session state before any load: `habits = []`, `habit_data = {}`
(src/app.py lines 16-20). -/
def emptySession : Json × Json :=
  (Json.arr [], Json.obj [])

/-- The guarded startup load, src/app.py lines 31-42.  The resource is `none`
when the file is absent, `some none` when present but not JSON-parseable, and
`some (some j)` when it parses to `j`.  `load_data` assigns
`habits = data['habits']` before `habit_data = data['habit_data']`; an
exception at either subscript (or at the parse) is caught at line 41, leaving
whatever was assigned so far.  Returns the final session state and whether
the load completed without an exception. -/
def load_attempt (resource : Option (Option Json)) (state : Json × Json) :
    (Json × Json) × Bool :=
  match resource with
  | none => (state, true)
  | some none => (state, false)
  | some (some j) =>
    match jsonGet j "habits" with
    | none => (state, false)
    | some h =>
      match jsonGet j "habit_data" with
      | none => ((h, state.2), false)
      | some hd => ((h, hd), true)

/-- The in-memory session state after startup: the guarded load applied to
the fresh empty session. -/
def startup (resource : Option (Option Json)) : Json × Json :=
  (load_attempt resource emptySession).1

/-- `save_data`, src/app.py lines 23-29: the JSON value written to the file,
an object with the habit list under 'habits' and the habit mapping under
'habit_data'. -/
def save_data (state : Json × Json) : Json :=
  Json.obj [("habits", state.1), ("habit_data", state.2)]

/-- The sequence/mapping synchronisation invariant from the spec: every name
in the habit sequence has an entry in the mapping and every key of the
mapping appears in the sequence. -/
def inSync (s : Store) : Prop :=
  (∀ n ∈ s.habits, (lookupKey s.habit_data n).isSome) ∧
  (∀ p ∈ s.habit_data, p.1 ∈ s.habits)

instance (s : Store) : Decidable (inSync s) := by
  unfold inSync
  infer_instance

/-- The representation invariants of the session state: the sequence/mapping
synchronisation, no duplicate names in the habit list, and no duplicate keys
in the association list representing the `habit_data` dict (automatic for a
Python dict). -/
def wellFormed (s : Store) : Prop :=
  inSync s ∧ s.habits.Nodup ∧ (s.habit_data.map Prod.fst).Nodup

instance (s : Store) : Decidable (wellFormed s) := by
  unfold wellFormed
  infer_instance

/-- A sample habit as the Add Habit handler creates it. -/
def gymHabit : Habit :=
  { category := "Health", goal := "Daily", streak := 0, history := [] }

/-- A store holding the single habit `gym` with streak 0 and empty history. -/
def gymStore : Store :=
  { habits := ["gym"], habit_data := [("gym", gymHabit)] }

/-- The empty store. -/
def emptyStore : Store :=
  { habits := [], habit_data := [] }

/-- A store whose habit list holds the same name twice, as a loaded file can
produce; it satisfies the sequence/mapping synchronisation property. -/
def dupStore : Store :=
  { habits := ["a", "a"], habit_data := [("a", gymHabit)] }

/-- A parseable resource that has a 'habits' member but no 'habit_data'
member. -/
def partialResource : Json :=
  Json.obj [("habits", Json.arr [Json.str "x"])]

/-- A habit with streak 5 whose history records `d1` as completed. -/
def gymHabit5 : Habit :=
  { category := "Health", goal := "Daily", streak := 5, history := [("d1", true)] }

/-- A habit whose three-date history records true, false, true. -/
def sampleHabit : Habit :=
  { category := "Health", goal := "Daily", streak := 0,
    history := [("d1", true), ("d2", false), ("d3", true)] }

/-- A store holding the single habit `gym` as `gymHabit5`. -/
def gymStore5 : Store :=
  { habits := ["gym"], habit_data := [("gym", gymHabit5)] }

/-! ### Association-list lemmas -/

theorem lookup_setKey {α : Type} (l : List (String × α)) (k v key) :
    lookupKey (setKey l k v) key = if k = key then some v else lookupKey l key := by
  induction l with
  | nil => simp [setKey, lookupKey]
  | cons p rest ih =>
    obtain ⟨k0, v0⟩ := p
    by_cases h : k0 = k
    · subst h
      by_cases hq : k0 = key <;> simp [setKey, lookupKey, hq]
    · by_cases hq : k0 = key
      · subst hq
        have : k ≠ k0 := fun hh => h hh.symm
        simp [setKey, lookupKey, h, this]
      · simp [setKey, lookupKey, h, hq, ih]

theorem lookup_eq_some_mem {α : Type} {l : List (String × α)} {k : String} {v : α}
    (h : lookupKey l k = some v) : (k, v) ∈ l := by
  induction l with
  | nil => simp [lookupKey] at h
  | cons p rest ih =>
    obtain ⟨k0, v0⟩ := p
    by_cases hq : k0 = k
    · subst hq
      simp [lookupKey] at h
      simp [h]
    · simp [lookupKey, hq] at h
      exact List.mem_cons_of_mem _ (ih h)

theorem mem_setKey {α : Type} {l : List (String × α)} {k : String} {v : α}
    {p : String × α} (h : p ∈ setKey l k v) : p = (k, v) ∨ p ∈ l := by
  induction l with
  | nil => simpa [setKey] using h
  | cons q rest ih =>
    obtain ⟨k0, v0⟩ := q
    by_cases hq : k0 = k
    · subst hq
      simp [setKey] at h
      rcases h with h | h
      · exact Or.inl (by simp [h])
      · exact Or.inr (List.mem_cons_of_mem _ h)
    · simp [setKey, hq] at h
      rcases h with h | h
      · exact Or.inr (by simp [h])
      · rcases ih h with h' | h'
        · exact Or.inl h'
        · exact Or.inr (List.mem_cons_of_mem _ h')

theorem keys_setKey {α : Type} (l : List (String × α)) (k : String) (v : α) :
    (setKey l k v).map Prod.fst =
      if k ∈ l.map Prod.fst then l.map Prod.fst else l.map Prod.fst ++ [k] := by
  induction l with
  | nil => simp [setKey]
  | cons q rest ih =>
    obtain ⟨k0, v0⟩ := q
    by_cases hq : k0 = k
    · subst hq
      simp [setKey]
    · have hk : k ≠ k0 := fun hh => hq hh.symm
      by_cases hmem : k ∈ rest.map Prod.fst <;>
        simp [setKey, hq, hk, hmem, ih]

theorem keys_setKey_nodup {α : Type} {l : List (String × α)} {k : String} {v : α}
    (h : (l.map Prod.fst).Nodup) : ((setKey l k v).map Prod.fst).Nodup := by
  rw [keys_setKey]
  by_cases hmem : k ∈ l.map Prod.fst
  · simpa [hmem] using h
  · simp [hmem, List.nodup_append, h]

theorem lookup_delKey_ne {α : Type} {l : List (String × α)} {k n : String}
    (h : n ≠ k) : lookupKey (delKey l k) n = lookupKey l n := by
  induction l with
  | nil => simp [delKey]
  | cons q rest ih =>
    obtain ⟨k0, v0⟩ := q
    by_cases hq : k0 = k
    · subst hq
      have : k0 ≠ n := fun hh => h (hh.symm ▸ rfl)
      simp [delKey, lookupKey, this]
    · by_cases hn : k0 = n
      · subst hn
        simp [delKey, lookupKey, hq]
      · simp [delKey, lookupKey, hq, hn, ih]

theorem mem_delKey {α : Type} {l : List (String × α)} {k : String}
    {p : String × α} (hnd : (l.map Prod.fst).Nodup) (h : p ∈ delKey l k) :
    p ∈ l ∧ p.1 ≠ k := by
  induction l with
  | nil => simp [delKey] at h
  | cons q rest ih =>
    obtain ⟨k0, v0⟩ := q
    simp only [List.map_cons, List.nodup_cons] at hnd
    by_cases hq : k0 = k
    · subst hq
      simp only [delKey, if_pos rfl] at h
      refine ⟨List.mem_cons_of_mem _ h, ?_⟩
      intro hk
      exact hnd.1 (hk ▸ List.mem_map_of_mem Prod.fst h)
    · simp only [delKey, if_neg hq] at h
      rcases List.mem_cons.mp h with h' | h'
      · subst h'
        exact ⟨List.mem_cons_self _ _, hq⟩
      · obtain ⟨h1, h2⟩ := ih hnd.2 h'
        exact ⟨List.mem_cons_of_mem _ h1, h2⟩

theorem keys_delKey_nodup {α : Type} {l : List (String × α)} {k : String}
    (h : (l.map Prod.fst).Nodup) : ((delKey l k).map Prod.fst).Nodup := by
  induction l with
  | nil => simp [delKey]
  | cons q rest ih =>
    obtain ⟨k0, v0⟩ := q
    simp only [List.map_cons, List.nodup_cons] at h
    by_cases hq : k0 = k
    · simpa [delKey, hq] using h.2
    · simp only [delKey, if_neg hq, List.map_cons]
      refine List.nodup_cons.mpr ⟨?_, ih h.2⟩
      intro hmem
      rcases List.mem_map.mp hmem with ⟨p, hp, hpk⟩
      exact h.1 (hpk ▸ List.mem_map_of_mem Prod.fst (mem_delKey h.2 hp).1)

/-! ### Lemmas about Python list.remove -/

theorem mem_removeFirst_subset {l : List String} {y n : String}
    (h : n ∈ removeFirst l y) : n ∈ l := by
  induction l with
  | nil => simp [removeFirst] at h
  | cons x rest ih =>
    by_cases hx : x = y
    · simp only [removeFirst, if_pos hx] at h
      exact List.mem_cons_of_mem _ h
    · simp only [removeFirst, if_neg hx] at h
      rcases List.mem_cons.mp h with h' | h'
      · simp [h']
      · exact List.mem_cons_of_mem _ (ih h')

theorem removeFirst_nodup {l : List String} {y : String} (h : l.Nodup) :
    (removeFirst l y).Nodup ∧ ∀ n ∈ removeFirst l y, n ≠ y := by
  induction l with
  | nil => simp [removeFirst]
  | cons x rest ih =>
    rw [List.nodup_cons] at h
    by_cases hx : x = y
    · subst hx
      refine ⟨by simpa [removeFirst] using h.2, ?_⟩
      intro n hn hny
      simp only [removeFirst, if_pos rfl] at hn
      exact h.1 (hny ▸ hn)
    · obtain ⟨ih1, ih2⟩ := ih h.2
      constructor
      · simp only [removeFirst, if_neg hx]
        exact List.nodup_cons.mpr ⟨fun hc => h.1 (mem_removeFirst_subset hc), ih1⟩
      · intro n hn
        simp only [removeFirst, if_neg hx] at hn
        rcases List.mem_cons.mp hn with h' | h'
        · exact h' ▸ hx
        · exact ih2 n h'

theorem mem_removeFirst_of_ne {l : List String} {y n : String}
    (hmem : n ∈ l) (hne : n ≠ y) : n ∈ removeFirst l y := by
  induction l with
  | nil => simp at hmem
  | cons x rest ih =>
    by_cases hx : x = y
    · subst hx
      rcases List.mem_cons.mp hmem with h' | h'
      · exact absurd h' hne
      · simpa [removeFirst] using h'
    · rcases List.mem_cons.mp hmem with h' | h'
      · simp [removeFirst, hx, h']
      · simp only [removeFirst, if_neg hx]
        exact List.mem_cons_of_mem _ (ih h')

/-! ### Claim theorems -/

/-- C3: for every habit in the store whose history already records the given
date with value `b`, recording `b` again for that date leaves the streak (and
in fact the whole store) unchanged: redundant writes do not double-increment
or reset. -/
theorem redundant_checkin_preserves_streak (s : Store) (name date : String)
    (hab : Habit) (b : Bool)
    (hlook : lookupKey s.habit_data name = some hab)
    (hrec : lookupKey hab.history date = some b) :
    streakOf (record_checkin s name date b).1 name = some hab.streak ∧
    record_checkin s name date b = (s, none) := by
  have h : record_checkin s name date b = (s, none) := by
    simp [record_checkin, hlook, hrec]
  exact ⟨by rw [h]; simp [streakOf, hlook], h⟩

/-- Witness for C3 at a concrete store: the habit `gym` has `d1` recorded as
true; recording true again leaves the streak at 5 and the store unchanged. -/
theorem redundant_checkin_preserves_streak_witness :
    streakOf (record_checkin gymStore5 "gym" "d1" true).1 "gym" = some 5 ∧
    record_checkin gymStore5 "gym" "d1" true = (gymStore5, none) :=
  redundant_checkin_preserves_streak gymStore5 "gym" "d1" gymHabit5 true rfl rfl

/-- C7 (amended): the Add Habit handler fails with DuplicateHabit for every
name already present and leaves the store unchanged; it fails with
InvalidName, leaving the store unchanged, for the empty name (when not
already present) — Python string truthiness accepts any non-empty name, so a
whitespace-only name is not rejected. -/
theorem add_habit_failure_cases (s : Store) (name category goal : String) :
    (name ∈ s.habits →
      add_habit s name category goal = (s, some StoreError.DuplicateHabit)) ∧
    (name = "" → name ∉ s.habits →
      add_habit s name category goal = (s, some StoreError.InvalidName)) := by
  constructor
  · intro hmem
    have h1 : ¬(name ≠ "" ∧ name ∉ s.habits) := fun hc => hc.2 hmem
    simp [add_habit, h1, hmem]
  · intro hname hmem
    subst hname
    simp [add_habit, hmem]

/-- Witness for C7 at concrete stores: adding `gym` to the store already
holding `gym` fails with DuplicateHabit; adding the empty name to the empty
store fails with InvalidName; both leave the store unchanged. -/
theorem add_habit_failure_cases_witness :
    add_habit gymStore "gym" "Health" "Daily" =
      (gymStore, some StoreError.DuplicateHabit) ∧
    add_habit emptyStore "" "Health" "Daily" =
      (emptyStore, some StoreError.InvalidName) :=
  ⟨(add_habit_failure_cases gymStore "gym" "Health" "Daily").1 (by decide),
   (add_habit_failure_cases emptyStore "" "Health" "Daily").2 rfl (by decide)⟩

/-- Counterexample to C7 as stated: the whitespace-only name consisting of a
single space is accepted by the handler (no error, the habit is created),
because the guard is Python truthiness of the string, which only rejects the
empty string. -/
theorem add_whitespace_name_cex :
    (add_habit emptyStore " " "Health" "Daily").2 = none ∧
    (add_habit emptyStore " " "Health" "Daily").1.habits = [" "] := by
  decide

/-- The two outcomes of a check-in on a habit present in the mapping: a
no-op when the new value equals the prior defaulted status, and otherwise
the history write together with the streak increment or reset. -/
theorem record_checkin_eq (s : Store) (name date : String) (b : Bool) (hab : Habit)
    (hl : lookupKey s.habit_data name = some hab) :
    record_checkin s name date b =
      if b = (lookupKey hab.history date).getD false then (s, none)
      else ({ s with habit_data := setKey s.habit_data name { hab with history := setKey hab.history date b, streak := if b then hab.streak + 1 else 0 } }, none) := by
  by_cases hc : b = (lookupKey hab.history date).getD false
  · simp [record_checkin, hl, hc]
  · simp [record_checkin, hl, hc]

/-- C1 (amended): from streak 0 and four pairwise-distinct dates none of
which is recorded in the habit's history, the check-ins true, true, false,
true yield streaks 1, 2, 2, 3: the false check-in for an unrecorded date is
a no-op, because the prior status defaults to False and the update block
only runs when the new value differs (src/app.py line 115), so the streak is
not reset. -/
theorem checkin_sequence_streaks (s : Store) (name d1 d2 d3 d4 : String) (hab : Habit)
    (hlook : lookupKey s.habit_data name = some hab) (hstreak : hab.streak = 0)
    (hf1 : lookupKey hab.history d1 = none) (hf2 : lookupKey hab.history d2 = none)
    (hf3 : lookupKey hab.history d3 = none) (hf4 : lookupKey hab.history d4 = none)
    (h12 : d1 ≠ d2) (h13 : d1 ≠ d3) (h14 : d1 ≠ d4)
    (h23 : d2 ≠ d3) (h24 : d2 ≠ d4) (_h34 : d3 ≠ d4) :
    streakOf (record_checkin s name d1 true).1 name = some 1 ∧
    streakOf (record_checkin (record_checkin s name d1 true).1
      name d2 true).1 name = some 2 ∧
    streakOf (record_checkin (record_checkin (record_checkin s name d1 true).1
      name d2 true).1 name d3 false).1 name = some 2 ∧
    streakOf (record_checkin (record_checkin (record_checkin
      (record_checkin s name d1 true).1
      name d2 true).1 name d3 false).1 name d4 true).1 name = some 3 := by
  simp [record_checkin, streakOf, lookup_setKey, hlook, hstreak,
    hf1, hf2, hf3, hf4, h12, h13, h14, h23, h24]

/-- Witness for C1 at a concrete store: the habit `gym` with streak 0 and
empty history, checked in on the four distinct dates d1..d4. -/
theorem checkin_sequence_streaks_witness :
    streakOf (record_checkin gymStore "gym" "d1" true).1 "gym" = some 1 ∧
    streakOf (record_checkin (record_checkin gymStore "gym" "d1" true).1
      "gym" "d2" true).1 "gym" = some 2 ∧
    streakOf (record_checkin (record_checkin (record_checkin gymStore "gym" "d1" true).1
      "gym" "d2" true).1 "gym" "d3" false).1 "gym" = some 2 ∧
    streakOf (record_checkin (record_checkin (record_checkin
      (record_checkin gymStore "gym" "d1" true).1
      "gym" "d2" true).1 "gym" "d3" false).1 "gym" "d4" true).1 "gym" = some 3 :=
  checkin_sequence_streaks gymStore "gym" "d1" "d2" "d3" "d4" gymHabit
    rfl rfl rfl rfl rfl rfl (by decide) (by decide) (by decide)
    (by decide) (by decide) (by decide)

/-- Counterexample to C1 as stated: on the habit `gym` with streak 0 and
empty history, after check-ins true, true, false for three distinct fresh
dates the streak is 2, not the 0 the claim requires after the false
check-in. -/
theorem checkin_sequence_claim_cex :
    streakOf (record_checkin (record_checkin (record_checkin gymStore "gym" "d1" true).1
      "gym" "d2" true).1 "gym" "d3" false).1 "gym" = some 2 ∧
    streakOf (record_checkin (record_checkin (record_checkin gymStore "gym" "d1" true).1
      "gym" "d2" true).1 "gym" "d3" false).1 "gym" ≠ some 0 := by
  decide

/-- C2 (amended): recording true twice for the same previously-unrecorded
date increments the streak only once: the first call writes the date as true
and increments the streak, and the second call is a no-op (the new value
equals the recorded value, so the guard at src/app.py line 115 skips the
update) — the update IS idempotent across repeated identical true
check-ins. -/
theorem double_true_checkin_noop (s : Store) (name date : String) (hab : Habit)
    (hlook : lookupKey s.habit_data name = some hab)
    (hfresh : lookupKey hab.history date = none) :
    streakOf (record_checkin s name date true).1 name = some (hab.streak + 1) ∧
    record_checkin (record_checkin s name date true).1 name date true =
      ((record_checkin s name date true).1, none) := by
  simp [record_checkin, streakOf, lookup_setKey, hlook, hfresh]

/-- Witness for C2 at a concrete store: the habit `gym` with streak 0 and
empty history, checked in as true twice for the date d1. -/
theorem double_true_checkin_noop_witness :
    streakOf (record_checkin gymStore "gym" "d1" true).1 "gym" = some 1 ∧
    record_checkin (record_checkin gymStore "gym" "d1" true).1 "gym" "d1" true =
      ((record_checkin gymStore "gym" "d1" true).1, none) :=
  double_true_checkin_noop gymStore "gym" "d1" gymHabit rfl rfl

/-- Counterexample to C2 as stated: starting from streak 0, recording true
twice for the same fresh date leaves the streak at 1, not the 2 the claim
asserts. -/
theorem double_true_checkin_cex :
    streakOf (record_checkin (record_checkin gymStore "gym" "d1" true).1
      "gym" "d1" true).1 "gym" = some 1 ∧
    streakOf (record_checkin (record_checkin gymStore "gym" "d1" true).1
      "gym" "d1" true).1 "gym" ≠ some 2 := by
  decide

/-- C4 (amended): after record_checkin(name, d, b) the habit's history read
back with default False yields b, and an explicit entry for d holds b
whenever the new value differed from the prior defaulted status; but
recording False for a previously-unrecorded date is a no-op that leaves the
date absent from the history (no explicit false entry is written). -/
theorem history_write_semantics (s : Store) (name date : String) (hab : Habit) (b : Bool)
    (hlook : lookupKey s.habit_data name = some hab) :
    ∃ hab', lookupKey (record_checkin s name date b).1.habit_data name = some hab' ∧
      (lookupKey hab'.history date).getD false = b ∧
      ((lookupKey hab.history date).getD false ≠ b → lookupKey hab'.history date = some b) ∧
      (lookupKey hab.history date = none → b = false →
        lookupKey hab'.history date = none) := by
  by_cases hc : b = (lookupKey hab.history date).getD false
  · refine ⟨hab, ?_, hc.symm, ?_, ?_⟩
    · simp [record_checkin, hlook, hc]
    · intro hne
      exact absurd hc.symm hne
    · intro hnone _
      exact hnone
  · refine ⟨{ hab with history := setKey hab.history date b, streak := if b then hab.streak + 1 else 0 }, ?_, ?_, ?_, ?_⟩
    · simp [record_checkin, hlook, hc, lookup_setKey]
    · simp [lookup_setKey]
    · intro _
      simp [lookup_setKey]
    · intro hnone hbf
      subst hbf
      simp [hnone] at hc

/-- Witness for C4 at a concrete store: recording true for the fresh date d1
on the habit `gym`. -/
theorem history_write_semantics_witness :
    ∃ hab', lookupKey (record_checkin gymStore "gym" "d1" true).1.habit_data "gym" =
        some hab' ∧
      (lookupKey hab'.history "d1").getD false = true ∧
      ((lookupKey gymHabit.history "d1").getD false ≠ true →
        lookupKey hab'.history "d1" = some true) ∧
      (lookupKey gymHabit.history "d1" = none → true = false →
        lookupKey hab'.history "d1" = none) :=
  history_write_semantics gymStore "gym" "d1" gymHabit true rfl

/-- Counterexample to C4 as stated: recording False for the unrecorded date
d1 on the habit `gym` leaves no entry for d1 in the history (the whole store
is unchanged), while the claim requires an explicit false entry distinct
from an absent date. -/
theorem history_write_cex :
    ((lookupKey (record_checkin gymStore "gym" "d1" false).1.habit_data "gym").bind
      fun h => lookupKey h.history "d1") = none ∧
    (record_checkin gymStore "gym" "d1" false).1 = gymStore := by
  decide

/-- C9: save followed by load reproduces the identical session state — the
same habit-name sequence value and the same habit-mapping value (with all
nested categories, goals, streaks and histories), for every state and
whatever state the load starts from. -/
theorem save_load_roundtrip (state reset : Json × Json) :
    load_attempt (some (some (save_data state))) reset = (state, true) := by
  rfl

/-- C8 (amended): startup with no persisted file yields the empty session
without error.  A failing load leaves the habit mapping empty, and leaves
the habit list empty too unless the resource parses to an object that has a
'habits' member but whose 'habit_data' subscript fails — in that case the
habit list has already been assigned from the resource when the exception is
caught, so the store after startup is not empty. -/
theorem load_fallback :
    load_attempt none emptySession = (emptySession, true) ∧
    ∀ res : Option Json, (load_attempt (some res) emptySession).2 = false →
      (load_attempt (some res) emptySession).1.2 = Json.obj [] ∧
      ((load_attempt (some res) emptySession).1.1 = Json.arr [] ∨
        ∃ j, res = some j ∧
          jsonGet j "habits" = some (load_attempt (some res) emptySession).1.1 ∧
          jsonGet j "habit_data" = none) := by
  refine ⟨rfl, ?_⟩
  intro res hfail
  cases res with
  | none => exact ⟨rfl, Or.inl rfl⟩
  | some j =>
    cases hh : jsonGet j "habits" with
    | none => simp [load_attempt, hh, emptySession]
    | some h =>
      cases hd : jsonGet j "habit_data" with
      | none =>
        refine ⟨?_, Or.inr ⟨j, rfl, ?_, hd⟩⟩
        · simp [load_attempt, hh, hd, emptySession]
        · simp [load_attempt, hh, hd]
      | some d => simp [load_attempt, hh, hd] at hfail

/-- Witness for C8 at a concrete resource: a file that is present but not
JSON-parseable raises, and the session state stays the empty one. -/
theorem load_fallback_witness :
    (load_attempt (some none) emptySession).1.2 = Json.obj [] ∧
    ((load_attempt (some none) emptySession).1.1 = Json.arr [] ∨
      ∃ j, (none : Option Json) = some j ∧
        jsonGet j "habits" = some (load_attempt (some none) emptySession).1.1 ∧
        jsonGet j "habit_data" = none) :=
  load_fallback.2 none rfl

/-- Counterexample to C8 as stated: the malformed resource that parses to
the object with only a 'habits' member fails the load (an exception is
raised at the 'habit_data' subscript) yet the resulting in-memory state is
not the empty store: the habit list was already assigned from the
resource. -/
theorem load_partial_fallback_cex :
    (load_attempt (some (some partialResource)) emptySession).2 = false ∧
    startup (some (some partialResource)) = (Json.arr [Json.str "x"], Json.obj []) ∧
    startup (some (some partialResource)) ≠ emptySession := by
  refine ⟨rfl, rfl, ?_⟩
  intro h
  have h1 := congrArg Prod.fst h
  simp only [startup, load_attempt, partialResource, emptySession, jsonGet,
    lookupKey] at h1
  simp at h1

/-- Counterexample to C10 as stated: a loadable store whose habit list holds
the name `a` twice satisfies the sequence/mapping synchronisation invariant,
but removing `a` breaks it — the second occurrence stays in the list while
the mapping entry is deleted. -/
theorem remove_dup_sync_cex :
    inSync dupStore ∧ ¬ inSync (remove_habit dupStore "a").1 := by
  decide

/-- C10 (amended): every store mutation — add_habit, remove_habit,
record_checkin, in success and failure cases alike — preserves the
sequence/mapping synchronisation invariant for stores whose habit list is
duplicate-free (and whose mapping, a Python dict, has duplicate-free keys);
the duplicate-freeness is itself preserved.  Without the duplicate-free
hypothesis the preservation fails, see the counterexample. -/
theorem mutations_preserve_sync (s : Store) (name category goal date : String) (b : Bool)
    (h : wellFormed s) :
    wellFormed (add_habit s name category goal).1 ∧
    wellFormed (remove_habit s name).1 ∧
    wellFormed (record_checkin s name date b).1 := by
  obtain ⟨⟨hs1, hs2⟩, hnd, hkeys⟩ := h
  refine ⟨?_, ?_, ?_⟩
  · by_cases hcond : name ≠ "" ∧ name ∉ s.habits
    · simp only [add_habit, if_pos hcond]
      refine ⟨⟨?_, ?_⟩, ?_, keys_setKey_nodup hkeys⟩
      · intro n hn
        rw [lookup_setKey]
        by_cases he : name = n
        · simp [he]
        · rcases List.mem_append.mp hn with h' | h'
          · simpa [he] using hs1 n h'
          · simp at h'
            exact absurd h'.symm he
      · intro p hp
        rcases mem_setKey hp with h' | h'
        · rw [h']
          exact List.mem_append_right _ (List.mem_singleton.mpr rfl)
        · exact List.mem_append_left _ (hs2 p h')
      · simp [List.nodup_append, hnd, hcond.2]
    · have hres : (add_habit s name category goal).1 = s := by
        simp only [add_habit, if_neg hcond]
        split_ifs <;> rfl
      rw [hres]
      exact ⟨⟨hs1, hs2⟩, hnd, hkeys⟩
  · by_cases hmem : name ∈ s.habits
    · simp only [remove_habit, if_pos hmem]
      obtain ⟨hrn, hrne⟩ := removeFirst_nodup (y := name) hnd
      refine ⟨⟨?_, ?_⟩, hrn, keys_delKey_nodup hkeys⟩
      · intro n hn
        rw [lookup_delKey_ne (hrne n hn)]
        exact hs1 n (mem_removeFirst_subset hn)
      · intro p hp
        obtain ⟨hp1, hp2⟩ := mem_delKey hkeys hp
        exact mem_removeFirst_of_ne (hs2 p hp1) hp2
    · simp only [remove_habit, if_neg hmem]
      exact ⟨⟨hs1, hs2⟩, hnd, hkeys⟩
  · cases hl : lookupKey s.habit_data name with
    | none =>
      simp only [record_checkin, hl]
      exact ⟨⟨hs1, hs2⟩, hnd, hkeys⟩
    | some hab =>
      have hname : name ∈ s.habits := hs2 (name, hab) (lookup_eq_some_mem hl)
      rw [record_checkin_eq s name date b hab hl]
      by_cases hc : b = (lookupKey hab.history date).getD false
      · rw [if_pos hc]
        exact ⟨⟨hs1, hs2⟩, hnd, hkeys⟩
      · rw [if_neg hc]
        refine ⟨⟨?_, ?_⟩, hnd, keys_setKey_nodup hkeys⟩
        · intro n hn
          rw [lookup_setKey]
          by_cases he : name = n
          · simp [he]
          · simpa [he] using hs1 n hn
        · intro p hp
          rcases mem_setKey hp with h' | h'
          · rw [h']
            exact hname
          · exact hs2 p h'

/-- C5: the completion rate equals 100 times the count of true values in the
history divided by the count of all entries, is 0 on an empty history,
always lies in [0, 100], and on the three-date history true, false, true it
is 200/3. -/
theorem completion_rate_correct :
    (∀ hab : Habit,
      completion_rate hab =
        (if hab.history.length = 0 then 0
         else 100 * ((hab.history.filter fun p => p.2).length : ℚ) /
           (hab.history.length : ℚ)) ∧
      0 ≤ completion_rate hab ∧ completion_rate hab ≤ 100) ∧
    completion_rate sampleHabit = 200 / 3 := by
  constructor
  · intro hab
    by_cases h : hab.history.length = 0
    · simp [completion_rate, h]
    · have hp : 0 < hab.history.length := Nat.pos_of_ne_zero h
      have hq : (0 : ℚ) < (hab.history.length : ℚ) := by exact_mod_cast hp
      have hc : ((hab.history.filter fun p => p.2).length : ℚ) ≤
          (hab.history.length : ℚ) := by
        exact_mod_cast List.length_filter_le _ hab.history
      have h1 : ((hab.history.filter fun p => p.2).length : ℚ) /
          (hab.history.length : ℚ) ≤ 1 := (div_le_one hq).mpr hc
      refine ⟨?_, ?_, ?_⟩
      · simp only [completion_rate, if_pos hp, if_neg h]
        ring
      · simp only [completion_rate, if_pos hp]
        positivity
      · simp only [completion_rate, if_pos hp]
        nlinarith [h1]
  · norm_num [completion_rate, sampleHabit]

/-- The calendar loop invariant: folding cells into a grid of 7-cell weeks
and a partial current week keeps every flushed week at exactly 7 cells,
keeps the current week under 7 cells, and conserves the cell sequence. -/
theorem calStep_foldl (cells : List (Option DayCell)) :
    ∀ (data : List (List (Option DayCell))) (week : List (Option DayCell)),
      (∀ w ∈ data, w.length = 7) → week.length < 7 →
      (∀ w ∈ (cells.foldl calStep (data, week)).1, w.length = 7) ∧
      (cells.foldl calStep (data, week)).2.length < 7 ∧
      (cells.foldl calStep (data, week)).1.flatten ++ (cells.foldl calStep (data, week)).2 =
        data.flatten ++ (week ++ cells) := by
  induction cells with
  | nil =>
    intro data week hdata hweek
    simpa using ⟨hdata, hweek⟩
  | cons c cs ih =>
    intro data week hdata hweek
    rw [List.foldl_cons]
    by_cases h7 : (week ++ [c]).length = 7
    · have hstep : calStep (data, week) c = (data ++ [week ++ [c]], []) := by
        simp only [calStep]
        rw [if_pos h7]
      rw [hstep]
      have hdata' : ∀ w ∈ data ++ [week ++ [c]], w.length = 7 := by
        intro w hw
        rcases List.mem_append.mp hw with h' | h'
        · exact hdata w h'
        · rw [List.mem_singleton.mp h']
          exact h7
      obtain ⟨a1, a2, a3⟩ := ih (data ++ [week ++ [c]]) [] hdata' (by norm_num)
      refine ⟨a1, a2, ?_⟩
      rw [a3]
      simp
    · have hstep : calStep (data, week) c = (data, week ++ [c]) := by
        simp only [calStep]
        rw [if_neg h7]
      rw [hstep]
      have hlt : (week ++ [c]).length < 7 := by
        have h1 : (week ++ [c]).length = week.length + 1 := by simp
        omega
      obtain ⟨a1, a2, a3⟩ := ih data (week ++ [c]) hdata hlt
      refine ⟨a1, a2, ?_⟩
      rw [a3]
      simp

/-- A list of 7-cell weeks flattens to a cell count divisible by 7. -/
theorem flatten_length_of_weeks (L : List (List (Option DayCell)))
    (h : ∀ w ∈ L, w.length = 7) : L.flatten.length % 7 = 0 := by
  induction L with
  | nil => simp
  | cons w ws ih =>
    have hw : w.length = 7 := h w (List.mem_cons_self _ _)
    have hws := ih fun x hx => h x (List.mem_cons_of_mem _ hx)
    simp only [List.flatten_cons, List.length_append, hw]
    omega

/-- The run of empty cells before the first day cell is exactly the leading
padding. -/
theorem takeWhile_replicate_none (n : Nat) (c : DayCell) (l : List (Option DayCell)) :
    ((List.replicate n (none : Option DayCell) ++ some c :: l).takeWhile
      fun x => x.isNone) = List.replicate n none := by
  induction n with
  | zero => simp [List.takeWhile_cons]
  | succ k ih => simp [List.replicate_succ, List.takeWhile_cons, ih]

/-- Every month has at least one day. -/
theorem one_le_daysInMonth (y m : Nat) : 1 ≤ daysInMonth y m := by
  unfold daysInMonth
  split_ifs <;> norm_num

/-- The weekday index is always below 7. -/
theorem weekday_lt_seven (y m d : Nat) : weekday y m d < 7 :=
  Nat.mod_lt _ (by norm_num)

/-- The month's cell sequence starts with the day-1 cell. -/
theorem monthCells_cons (hist : List (String × Bool)) (y m : Nat) :
    ∃ c cs, monthCells hist y m = some c :: cs := by
  have h1 : 1 ≤ daysInMonth y m := one_le_daysInMonth y m
  obtain ⟨k, hk⟩ : ∃ k, daysInMonth y m = k + 1 := ⟨daysInMonth y m - 1, by omega⟩
  unfold monthCells
  rw [hk, List.range'_succ, List.map_cons]
  exact ⟨_, _, rfl⟩

/-- C6: for every habit history, year and month, the calendar grid consists
of weeks of exactly 7 cells; the total cell count is a multiple of 7; the
run of leading empty cells is exactly the Monday-0 weekday index of day 1;
and the flattened grid is that left padding, followed by the day cells 1..n
each carrying completed = history.get(date_string, False), followed by
right padding of fewer than 7 empty cells. -/
theorem calendar_grid_shape (hist : List (String × Bool)) (y m : Nat) :
    (∀ w ∈ calendar_grid hist y m, w.length = 7) ∧
    (calendar_grid hist y m).flatten.length % 7 = 0 ∧
    ((calendar_grid hist y m).flatten.takeWhile fun c => c.isNone).length =
      weekday y m 1 ∧
    ∃ pad, pad < 7 ∧
      (calendar_grid hist y m).flatten =
        List.replicate (weekday y m 1) none ++ monthCells hist y m ++
          List.replicate pad none := by
  have hw7 : (List.replicate (weekday y m 1) (none : Option DayCell)).length < 7 := by
    simpa using weekday_lt_seven y m 1
  obtain ⟨a1, a2, a3⟩ :=
    calStep_foldl (monthCells hist y m) [] (List.replicate (weekday y m 1) none)
      (by simp) hw7
  simp only [List.flatten_nil, List.nil_append] at a3
  set fin := (monthCells hist y m).foldl calStep
    ([], List.replicate (weekday y m 1) none) with hfin
  have hgrid : calendar_grid hist y m =
      if fin.2.isEmpty then fin.1
      else fin.1 ++ [fin.2 ++ List.replicate (7 - fin.2.length) none] := rfl
  have key : (∀ w ∈ calendar_grid hist y m, w.length = 7) ∧
      ∃ pad, pad < 7 ∧
        (calendar_grid hist y m).flatten =
          List.replicate (weekday y m 1) none ++ monthCells hist y m ++
            List.replicate pad none := by
    by_cases he : fin.2.isEmpty
    · rw [hgrid, if_pos he]
      have h2 : fin.2 = [] := List.isEmpty_iff.mp he
      rw [h2, List.append_nil] at a3
      refine ⟨a1, 0, by norm_num, ?_⟩
      rw [a3]
      simp
    · rw [hgrid, if_neg he]
      have h2 : fin.2 ≠ [] := fun hc => he (by simp [hc])
      have hlen : 1 ≤ fin.2.length := by
        cases hfin2 : fin.2 with
        | nil => exact absurd hfin2 h2
        | cons x xs => simp
      constructor
      · intro w hw
        rcases List.mem_append.mp hw with h' | h'
        · exact a1 w h'
        · rw [List.mem_singleton.mp h']
          simp only [List.length_append, List.length_replicate]
          omega
      · refine ⟨7 - fin.2.length, by omega, ?_⟩
        rw [List.flatten_append]
        simp only [List.flatten_cons, List.flatten_nil, List.append_nil]
        rw [← List.append_assoc, a3]
  obtain ⟨k1, kpad⟩ := key
  refine ⟨k1, flatten_length_of_weeks _ k1, ?_, kpad⟩
  obtain ⟨pad, _, hj⟩ := kpad
  obtain ⟨c, cs, hc⟩ := monthCells_cons hist y m
  rw [hj, hc, List.append_assoc, List.cons_append, takeWhile_replicate_none]
  simp

/-- Witness for C10 at a concrete store: the three mutations applied to the
well-formed store holding the single habit `gym`. -/
theorem mutations_preserve_sync_witness :
    wellFormed (add_habit gymStore "gym" "Health" "Daily").1 ∧
    wellFormed (remove_habit gymStore "gym").1 ∧
    wellFormed (record_checkin gymStore "gym" "d1" true).1 :=
  mutations_preserve_sync gymStore "gym" "Health" "Daily" "d1" true (by decide)

end HabitTracker
